import Mathlib

/-!
Verification of the proglog commit-log service: the in-memory record store
(the `Log` type of package `server`) and the HTTP gateway handlers of
`internal/server/http.go`, embedded shallowly.
-/

namespace Proglog

/-- Modelled from the spec: the `Record` type of the record-store component
(declared in the `server` package alongside `Log`; its source file is not in
`src/`, only its caller `internal/server/http.go` is). A record is an opaque
byte payload plus its assigned offset; bytes are modelled as `Nat`. -/
structure Record where
  value : List Nat
  offset : Nat
deriving DecidableEq

/-- Modelled from the spec: the error values a store operation can produce in
Go. `offsetNotFound` is the sentinel `ErrOffsetNotFound` compared by identity
in `http.go`; `other` stands for any distinct error value, carrying whatever
message string it may have. -/
inductive GoError where
  | offsetNotFound
  | other (msg : String)
deriving DecidableEq

/-- The sentinel value `ErrOffsetNotFound` that `Read` returns and
`handleConsume` in `http.go` compares against. -/
def errOffsetNotFound : GoError := GoError.offsetNotFound

/-- Modelled from the spec: the state of the record store `Log` — the ordered
sequence of records, indexed contiguously from 0. The mutex of the Go struct
is represented by each operation being a single atomic step on this state. -/
abbrev Log := List Record

/-- Modelled from the spec: `NewLog` creates the store with zero records. -/
def NewLog : Log := []

/-- Modelled from the spec: `Append(record)` atomically assigns the payload
the next sequential offset (the current length of the sequence), adds the
record to the end, and returns the assigned offset; it has no error
conditions under normal operation, so the Go error result is always `nil`
(`none`). Result: (new state, returned offset, returned error). -/
def Append (lg : Log) (record : Record) : Log × Nat × Option GoError :=
  (lg ++ [{ record with offset := lg.length }], lg.length, none)

/-- Modelled from the spec: `Read(offset)` returns the record previously
stored at `offset` when `offset < current length`, and fails with
`ErrOffsetNotFound` when `offset ≥ current length`. -/
def Read (lg : Log) (off : Nat) : Except GoError Record :=
  if h : off < lg.length then Except.ok (lg.get ⟨off, h⟩)
  else Except.error errOffsetNotFound

/-- A sequence of `Append` calls performed one after the other; returns the
final state and the list of offsets returned to the callers, in call order. -/
def appendAll (lg : Log) (rs : List Record) : Log × List Nat :=
  match rs with
  | [] => (lg, [])
  | r :: rest =>
      let a := Append lg r
      let tl := appendAll a.1 rest
      (tl.1, a.2.1 :: tl.2)

theorem appendAll_snd (rs : List Record) (lg : Log) :
    (appendAll lg rs).2 = List.range' lg.length rs.length := by
  induction rs generalizing lg with
  | nil => rfl
  | cons r rest ih =>
      simp [appendAll, Append, ih, List.range'_succ]

theorem appendAll_fst_length (rs : List Record) (lg : Log) :
    (appendAll lg rs).1.length = lg.length + rs.length := by
  induction rs generalizing lg with
  | nil => simp [appendAll]
  | cons r rest ih =>
      simp [appendAll, Append, ih]
      omega

theorem appendAll_fst_take (rs : List Record) (lg : Log) :
    (appendAll lg rs).1.take lg.length = lg := by
  induction rs generalizing lg with
  | nil => simp [appendAll]
  | cons r rest ih =>
      have h1 := ih (lg ++ [{ r with offset := lg.length }])
      have h2 : (appendAll (lg ++ [{ r with offset := lg.length }]) rest).1.take lg.length
          = ((appendAll (lg ++ [{ r with offset := lg.length }]) rest).1.take
              (lg.length + 1)).take lg.length := by
        rw [List.take_take]
        simp
      simp only [appendAll, Append]
      rw [h2]
      have h3 : (lg ++ [{ r with offset := lg.length }]).length = lg.length + 1 := by simp
      rw [← h3, h1]
      exact List.take_left lg _

theorem read_append_left (lg d : Log) (off : Nat) (h : off < lg.length) :
    Read (lg ++ d) off = Read lg off := by
  have h1 : off < (lg ++ d).length := by
    simp only [List.length_append]
    omega
  simp only [Read, dif_pos h, dif_pos h1]
  congr 1
  simp [List.get_eq_getElem, List.getElem_append_left, h]

theorem read_appendAll_frame (lg : Log) (rest : List Record) (off : Nat)
    (h : off < lg.length) :
    Read (appendAll lg rest).1 off = Read lg off := by
  have hd : (appendAll lg rest).1
      = lg ++ (appendAll lg rest).1.drop lg.length := by
    conv_lhs => rw [← List.take_append_drop lg.length (appendAll lg rest).1]
    rw [appendAll_fst_take]
  rw [hd, read_append_left lg _ off h]

/-- From `http.go`: `ProduceRequest` contains the record that the caller
wants appended to the log. -/
structure ProduceRequest where
  record : Record
deriving DecidableEq

/-- From `http.go`: `ProduceResponse` tells the caller what offset the log
stored the record under. -/
structure ProduceResponse where
  offset : Nat
deriving DecidableEq

/-- From `http.go`: `ConsumeRequest` says which record the caller wants to
read, by offset. -/
structure ConsumeRequest where
  offset : Nat
deriving DecidableEq

/-- From `http.go`: `ConsumeResponse` carries the record back to the caller. -/
structure ConsumeResponse where
  record : Record
deriving DecidableEq

/-- The HTTP status classes the handlers in `http.go` produce: 200 via a
successful encode, and the three explicit `http.Error` statuses. -/
inductive HttpStatus where
  | ok
  | badRequest
  | notFound
  | internalServerError
deriving DecidableEq

/-- A handler's visible outcome: the status class and, on success, the
encoded response body. -/
structure HttpResponse (α : Type) where
  status : HttpStatus
  body : Option α
deriving DecidableEq

/-- From `http.go` (`handleConsume`, the part after `s.Log.Read`): map the
result of `Read` to a response — `err == ErrOffsetNotFound` gives 404,
any other non-nil error gives 500, and a successful read is encoded as a
`ConsumeResponse` with status 200. -/
def consumeRespond (res : Except GoError Record) : HttpResponse ConsumeResponse :=
  match res with
  | Except.error e =>
      if e = errOffsetNotFound then ⟨HttpStatus.notFound, none⟩
      else ⟨HttpStatus.internalServerError, none⟩
  | Except.ok record => ⟨HttpStatus.ok, some ⟨record⟩⟩

/-- From `http.go` (`handleConsume`): decode the JSON request body into a
`ConsumeRequest` (`none` models any body that fails to decode, including an
empty body); on decode failure respond 400 and return before calling `Read`;
otherwise call `s.Log.Read(req.Offset)` and map its result with
`consumeRespond`. Returns the store state after the request and the
response. -/
def handleConsume (lg : Log) (body : Option ConsumeRequest) :
    Log × HttpResponse ConsumeResponse :=
  match body with
  | none => (lg, ⟨HttpStatus.badRequest, none⟩)
  | some req => (lg, consumeRespond (Read lg req.offset))

/-- From `http.go` (`handleProduce`): decode the JSON request body into a
`ProduceRequest` (`none` models a body that fails to decode); on decode
failure respond 400 and return before calling `Append`; otherwise call
`s.Log.Append(req.Record)`, respond 500 if it returned an error, else encode
a `ProduceResponse` with the returned offset. -/
def handleProduce (lg : Log) (body : Option ProduceRequest) :
    Log × HttpResponse ProduceResponse :=
  match body with
  | none => (lg, ⟨HttpStatus.badRequest, none⟩)
  | some req =>
      match Append lg req.record with
      | (lg1, _, some _) => (lg1, ⟨HttpStatus.internalServerError, none⟩)
      | (lg1, off, none) => (lg1, ⟨HttpStatus.ok, some ⟨off⟩⟩)

/-- The bytes of the ASCII string "hello", for the end-to-end scenario. -/
def helloBytes : List Nat := [104, 101, 108, 108, 111]

/-- The record carrying the payload "hello" (offset field of the input is
irrelevant: `Append` overwrites it). -/
def hello : Record := { value := helloBytes, offset := 0 }

/-- Claim C1: starting from the empty store, the kth `Append` call
(1-indexed) of any single-threaded sequence returns offset k−1 — the list of
returned offsets is exactly `[0, 1, …, N−1]` — and, equivalently, every
`Append` returns the store's length immediately before that call. -/
theorem append_offsets_sequential :
    (∀ (lg : Log) (r : Record), (Append lg r).2.1 = lg.length) ∧
    (∀ rs : List Record, (appendAll NewLog rs).2 = List.range rs.length) := by
  constructor
  · intro lg r
    rfl
  · intro rs
    rw [appendAll_snd, List.range_eq_range']
    rfl

/-- Claim C2: for every offset successfully returned by an `Append(p)`, a
subsequent `Read` of that offset — after any further appends — returns a
record whose payload equals `p`; in particular, on the empty store
`Append("hello")` returns offset 0 and `Read(0)` then returns "hello". -/
theorem append_read_roundtrip (lg : Log) (r : Record) (rest : List Record) :
    Read (appendAll (Append lg r).1 rest).1 (Append lg r).2.1
        = Except.ok { value := r.value, offset := lg.length } ∧
    (Append NewLog hello).2.1 = 0 ∧
    Read (Append NewLog hello).1 0
        = Except.ok { value := helloBytes, offset := 0 } := by
  refine ⟨?_, rfl, rfl⟩
  have hlt : lg.length < (Append lg r).1.length := by
    simp [Append]
  have hoff : (Append lg r).2.1 = lg.length := rfl
  rw [hoff, read_appendAll_frame _ _ _ hlt]
  simp [Read, Append, hlt]

/-- Claim C3: `Read(o)` fails with `ErrOffsetNotFound` exactly when
`o ≥ current length`, returns the record stored at `o` when
`o < current length`, and in particular fails on offset 0 of a freshly
created, empty store. -/
theorem read_bounds (lg : Log) (off : Nat) :
    (lg.length ≤ off → Read lg off = Except.error errOffsetNotFound) ∧
    (∀ h : off < lg.length, Read lg off = Except.ok (lg.get ⟨off, h⟩)) ∧
    Read NewLog 0 = Except.error errOffsetNotFound := by
  refine ⟨?_, ?_, rfl⟩
  · intro hge
    simp [Read]
    omega
  · intro h
    simp [Read, h]

theorem read_bounds_witness :
    Read [hello] 1 = Except.error errOffsetNotFound ∧
    Read [hello] 0 = Except.ok hello := by
  refine ⟨(read_bounds [hello] 1).1 (by decide), ?_⟩
  have h := (read_bounds [hello] 0).2.1 (by decide)
  simpa using h

/-- Claim C4: the gateway maps each outcome to a distinct response class —
a body that fails to decode gives the bad-request class (both handlers), a
`Read` that fails with `ErrOffsetNotFound` gives the not-found class, any
other failure gives the generic server-error class, and those three classes
are pairwise distinct. -/
theorem gateway_error_mapping :
    (∀ lg : Log, (handleConsume lg none).2.status = HttpStatus.badRequest) ∧
    (∀ lg : Log, (handleProduce lg none).2.status = HttpStatus.badRequest) ∧
    (∀ (lg : Log) (req : ConsumeRequest), lg.length ≤ req.offset →
      (handleConsume lg (some req)).2.status = HttpStatus.notFound) ∧
    (∀ msg, (consumeRespond (Except.error (GoError.other msg))).status
      = HttpStatus.internalServerError) ∧
    (HttpStatus.notFound ≠ HttpStatus.badRequest ∧
     HttpStatus.notFound ≠ HttpStatus.internalServerError ∧
     HttpStatus.badRequest ≠ HttpStatus.internalServerError) := by
  refine ⟨fun lg => rfl, fun lg => rfl, ?_, ?_, by decide, by decide, by decide⟩
  · intro lg req hge
    have hr : Read lg req.offset = Except.error errOffsetNotFound :=
      (read_bounds lg req.offset).1 hge
    simp [handleConsume, consumeRespond, hr]
  · intro msg
    simp [consumeRespond, errOffsetNotFound]

theorem gateway_error_mapping_witness :
    (handleConsume NewLog (some ⟨0⟩)).2.status = HttpStatus.notFound ∧
    (handleConsume NewLog none).2.status = HttpStatus.badRequest := by
  exact ⟨gateway_error_mapping.2.2.1 NewLog ⟨0⟩ (by decide),
    gateway_error_mapping.1 NewLog⟩

/-- Claim C5: `Append` increases the store's length by exactly one and
leaves every previously assigned record unchanged (the old state is exactly
the prefix of the new state, also across any further sequence of appends);
the consume path never changes the store state. -/
theorem append_frame (lg : Log) (r : Record) (rest : List Record)
    (body : Option ConsumeRequest) :
    (Append lg r).1.length = lg.length + 1 ∧
    (Append lg r).1.take lg.length = lg ∧
    (appendAll lg rest).1.take lg.length = lg ∧
    (handleConsume lg body).1 = lg := by
  refine ⟨by simp [Append], by simp [Append], appendAll_fst_take rest lg, ?_⟩
  cases body <;> rfl

/-- Claim C6: `Append` never fails — its Go error result is `nil` for every
store state and every payload — so the server-error branch that
`handleProduce` takes after `s.Log.Append` is unreachable: a decoded produce
request always yields status 200 with the assigned offset. -/
theorem append_never_fails (lg : Log) (r : Record) (req : ProduceRequest) :
    (Append lg r).2.2 = none ∧
    (handleProduce lg (some req)).2
      = ⟨HttpStatus.ok, some ⟨lg.length⟩⟩ ∧
    (handleProduce lg (some req)).2.status ≠ HttpStatus.internalServerError := by
  refine ⟨rfl, rfl, ?_⟩
  intro h
  simp [handleProduce, Append] at h

theorem append_never_fails_witness :
    (Append NewLog hello).2.2 = none ∧
    (handleProduce NewLog (some ⟨hello⟩)).2
      = ⟨HttpStatus.ok, some ⟨0⟩⟩ ∧
    (handleProduce NewLog (some ⟨hello⟩)).2.status
      ≠ HttpStatus.internalServerError :=
  append_never_fails NewLog hello ⟨hello⟩

/-- Claim C7: the not-found outcome is a tagged variant distinct from every
other error value regardless of message strings, and the gateway's mapping
distinguishes it from other failures deterministically: its response does
not depend on an error's message string, and the not-found class differs
from the class given to any other error. -/
theorem notfound_tagged_variant :
    (∀ msg, errOffsetNotFound ≠ GoError.other msg) ∧
    (∀ m1 m2, consumeRespond (Except.error (GoError.other m1))
      = consumeRespond (Except.error (GoError.other m2))) ∧
    (∀ msg, (consumeRespond (Except.error errOffsetNotFound)).status
      ≠ (consumeRespond (Except.error (GoError.other msg))).status) ∧
    (consumeRespond (Except.error errOffsetNotFound)).status
      = HttpStatus.notFound := by
  refine ⟨fun msg h => by simp [errOffsetNotFound] at h, ?_, ?_, rfl⟩
  · intro m1 m2
    simp [consumeRespond, errOffsetNotFound]
  · intro msg
    simp [consumeRespond, errOffsetNotFound]

theorem notfound_tagged_variant_witness :
    errOffsetNotFound ≠ GoError.other "offset not found" ∧
    (consumeRespond (Except.error errOffsetNotFound)).status
      ≠ (consumeRespond (Except.error (GoError.other "boom"))).status :=
  ⟨notfound_tagged_variant.1 "offset not found",
   notfound_tagged_variant.2.2.1 "boom"⟩

/-- Claim C9: a produce request whose body fails to decode is answered with
the bad-request class before `Append` is reached, leaving the store's state
(length and contents) exactly unchanged. -/
theorem produce_malformed_no_append (lg : Log) :
    handleProduce lg none = (lg, ⟨HttpStatus.badRequest, none⟩) := rfl

/-- Claim C10: the consume handler takes its offset from the decoded JSON
body — a decoded request with offset `o` is answered exactly by mapping
`Read lg o` — while a body that fails to decode (including an empty body) is
answered with the bad-request class, unchanged state, before `Read`; no
decoded request is ever answered with bad-request, so a malformed request is
never treated as a read of offset 0. -/
theorem consume_offset_from_body (lg : Log) (req : ConsumeRequest) :
    handleConsume lg none = (lg, ⟨HttpStatus.badRequest, none⟩) ∧
    handleConsume lg (some req) = (lg, consumeRespond (Read lg req.offset)) ∧
    (handleConsume lg (some req)).2.status ≠ HttpStatus.badRequest := by
  refine ⟨rfl, rfl, ?_⟩
  simp only [handleConsume]
  rcases hr : Read lg req.offset with e | record
  · simp only [consumeRespond]
    split <;> simp
  · simp [consumeRespond]

theorem consume_offset_from_body_witness :
    handleConsume NewLog none = (NewLog, ⟨HttpStatus.badRequest, none⟩) ∧
    handleConsume NewLog (some ⟨0⟩)
      = (NewLog, consumeRespond (Read NewLog 0)) ∧
    (handleConsume NewLog (some ⟨0⟩)).2.status ≠ HttpStatus.badRequest :=
  consume_offset_from_body NewLog ⟨0⟩

/-- Claim C8, modelled from the spec's concurrency discipline (§5): each
`Append` holds the store's exclusive lock for the whole operation, so an
execution of N concurrent callers is N atomic appends in the order the lock
was acquired. Caller `i` starts at time `start i`, acquires the lock at time
`acq i` (with `start i ≤ acq i ≤ finish i`) and finishes at `finish i`;
`order` is the lock-acquisition order (a permutation of the N callers,
strictly sorted by acquisition time). Then the list of returned offsets is
exactly `[0, …, N−1]` — no duplicates, no gaps — and if caller A finishes
before caller B starts, A's position in the order (hence A's returned
offset) is strictly below B's. -/
theorem concurrent_append_offsets (N : Nat) (rec : Fin N → Record)
    (start acq finish : Fin N → Nat) (order : List (Fin N))
    (hperm : order.Perm (List.finRange N))
    (hsorted : order.Sorted (fun i j => acq i < acq j))
    (hstart : ∀ i, start i ≤ acq i)
    (hfinish : ∀ i, acq i ≤ finish i) :
    (appendAll NewLog (order.map rec)).2 = List.range N ∧
    (appendAll NewLog (order.map rec)).2.Nodup ∧
    (∀ (k1 k2 : Nat) (h1 : k1 < order.length) (h2 : k2 < order.length),
      finish (order.get ⟨k1, h1⟩) < start (order.get ⟨k2, h2⟩) → k1 < k2) := by
  have hlen : order.length = N := by
    rw [hperm.length_eq, List.length_finRange]
  have hoffs : (appendAll NewLog (order.map rec)).2 = List.range N := by
    rw [appendAll_snd, List.range_eq_range']
    simp [NewLog, hlen]
  refine ⟨hoffs, by rw [hoffs]; exact List.nodup_range N, ?_⟩
  intro k1 k2 h1 h2 hrt
  by_contra hnot
  push_neg at hnot
  have hacq : acq (order.get ⟨k1, h1⟩) < acq (order.get ⟨k2, h2⟩) := by
    calc acq (order.get ⟨k1, h1⟩) ≤ finish (order.get ⟨k1, h1⟩) := hfinish _
    _ < start (order.get ⟨k2, h2⟩) := hrt
    _ ≤ acq (order.get ⟨k2, h2⟩) := hstart _
  rcases Nat.lt_or_ge k2 k1 with hlt | hge
  · have := hsorted.rel_get_of_lt (a := ⟨k2, h2⟩) (b := ⟨k1, h1⟩) hlt
    omega
  · have : k1 = k2 := by omega
    subst this
    omega

/-- Concrete two-caller execution for the witness: caller 0 runs over times
[0, 2] acquiring the lock at 1, caller 1 over [4, 6] acquiring at 5. -/
def demoRec : Fin 2 → Record := fun _ => hello

def demoStart : Fin 2 → Nat := fun i => 4 * i.val

def demoAcq : Fin 2 → Nat := fun i => 4 * i.val + 1

def demoFinish : Fin 2 → Nat := fun i => 4 * i.val + 2

def demoOrder : List (Fin 2) := [0, 1]

theorem concurrent_append_offsets_witness :
    (appendAll NewLog (demoOrder.map demoRec)).2 = List.range 2 ∧
    (appendAll NewLog (demoOrder.map demoRec)).2.Nodup ∧
    (∀ (k1 k2 : Nat) (h1 : k1 < demoOrder.length) (h2 : k2 < demoOrder.length),
      demoFinish (demoOrder.get ⟨k1, h1⟩) < demoStart (demoOrder.get ⟨k2, h2⟩) →
      k1 < k2) :=
  concurrent_append_offsets 2 demoRec demoStart demoAcq demoFinish demoOrder
    (by decide) (by decide) (by decide) (by decide)

end Proglog
